import Mathlib

/-!
Verification of the GPX container reader (guitarpro/gpx.py): the bit-level
stream reader `BitFile`, the LZ-style `decompress` routine, and the
sector-chained filesystem reconstructor `_readUncompressedBlock` /
`_readContents` of `GPXFileSystem`.

Bytes are modelled as `List Nat` (each element an octet value); the mutable
Python objects become explicit state passing.  Python's `bytes` slicing
(with its negative-index and clamping rules) is modelled by `pySlice`, and
`struct.unpack` failures become `Option`/`Except` results.  Loops whose
termination Python does not guarantee take an explicit fuel argument;
running out of fuel (`GPXError.noFuel`) is the formal counterpart of the
Python loop still running after that many iterations.
-/

namespace GPX

/-- State of `BitFile`: the not-yet-fetched suffix of the underlying byte
source, the most recently fetched byte (`currentByte`), and the bit cursor
`position` inside it.  Mirrors `BitFile.__init__` / the fields mutated by
`readbit`. -/
structure BitFile where
  stream : List Nat
  currentByte : Option Nat
  position : Nat
deriving DecidableEq, Repr

/-- A fresh reader over a byte source: `currentByte = None`, `position = 8`
("to ensure a byte is read on beginning"). -/
def BitFile.init (src : List Nat) : BitFile :=
  ⟨src, none, 8⟩

/-- `BitFile.readbit`: if `position > 7` fetch one byte from the stream
(`struct.error` on an empty stream is caught and yields `None`, leaving the
state untouched); otherwise serve bit `7 - position` of `currentByte`,
most significant bit first, and advance the cursor.  The
`position ≤ 7 ∧ currentByte = none` case is unreachable from `BitFile.init`
(see `Inv`) and is modelled as end-of-stream. -/
def readbit (bf : BitFile) : Option Nat × BitFile :=
  if bf.position > 7 then
    match bf.stream with
    | [] => (none, bf)
    | b :: rest => (some ((b >>> 7) &&& 1), ⟨rest, some b, 1⟩)
  else
    match bf.currentByte with
    | none => (none, bf)
    | some b =>
        (some ((b >>> (7 - bf.position)) &&& 1),
         ⟨bf.stream, some b, bf.position + 1⟩)

/-- `size` successive `readbit` calls, keeping the `None` results
(the list built by `[self.readbit() for _ in range(size)]`). -/
def readbitsAux : Nat → BitFile → List (Option Nat) × BitFile
  | 0, bf => ([], bf)
  | n + 1, bf =>
      match readbit bf with
      | (b, bf') =>
          match readbitsAux n bf' with
          | (bs, bf'') => (b :: bs, bf'')

/-- The read-to-end loop `list(iter(self.readbit, None))`: keep calling
`readbit` until it returns `None`.  The fuel bound `8 * |stream| + 8`
(supplied by `readbits`) dominates the number of bits the reader can
still produce, so the fuelled function agrees with the Python loop. -/
def drainAux : Nat → BitFile → List Nat × BitFile
  | 0, bf => ([], bf)
  | fuel + 1, bf =>
      match readbit bf with
      | (none, bf') => ([], bf')
      | (some b, bf') =>
          match drainAux fuel bf' with
          | (bs, bf'') => (b :: bs, bf'')

/-- `BitFile._encodebits`: pack a list of bit reads into an unsigned
integer; index `i` contributes at exponent `length - i - 1` (first bit most
significant) or `i` when `reversed_` is set; `None` entries are skipped. -/
def encodebits (bits : List (Option Nat)) (rev : Bool) : Nat :=
  bits.enum.foldl
    (fun result p =>
      match p.2 with
      | none => result
      | some bit =>
          result ||| (bit <<< (if rev then p.1 else bits.length - p.1 - 1)))
    0

/-- `BitFile.readbits(size, reversed_)`; `size = -1` is the read-to-end
mode. -/
def readbits (size : Int) (rev : Bool) (bf : BitFile) : Nat × BitFile :=
  if size = -1 then
    let p := drainAux (8 * bf.stream.length + 8) bf
    (encodebits (p.1.map some) rev, p.2)
  else
    let p := readbitsAux size.toNat bf
    (encodebits p.1 rev, p.2)

/-- Helper for `natToBytes`: big-endian base-256 digits of `v` (fuelled;
`v + 1` units of fuel always suffice since each step divides by 256). -/
def natToBytesCore : Nat → Nat → List Nat → List Nat
  | 0, _, acc => acc
  | _, 0, acc => acc
  | fuel + 1, v + 1, acc =>
      natToBytesCore fuel ((v + 1) / 256) (((v + 1) % 256) :: acc)

/-- The byte string produced by `unhexlify(hex(bits)[2:]...)` in
`BitFile.read`: the *minimal* big-endian representation of the packed
integer, padded with one leading zero nibble only when the hex digit count
is odd — i.e. leading zero *bytes* are dropped (`natToBytes 0 = [0]`,
`natToBytes 0x0012 = [0x12]`). -/
def natToBytes (v : Nat) : List Nat :=
  if v = 0 then [0] else natToBytesCore (v + 1) v []

/-- `BitFile.read(size)`: pack `size * 8` bits (or all remaining bits for
`size = -1`) and re-express them as bytes via the hex round-trip. -/
def BitFile.read (size : Int) (bf : BitFile) : List Nat × BitFile :=
  if size = -1 then
    let p := readbits (-1) false bf
    (natToBytes p.1, p.2)
  else
    let p := readbits (size * 8) false bf
    (natToBytes p.1, p.2)

/-- States of `BitFile` reachable from `BitFile.init`: either a fresh byte
is due (`position = 8`) or a fetched byte is being served
(`position ≤ 7` with `currentByte` set). -/
def Inv (bf : BitFile) : Prop :=
  bf.position = 8 ∨ (bf.position ≤ 7 ∧ bf.currentByte ≠ none)

instance (bf : BitFile) : Decidable (Inv bf) := by
  unfold Inv; infer_instance

/-- Python's index normalization for a slice bound `i` over a sequence of
length `len`: negative indices count from the end and everything is clamped
into `[0, len]`. -/
def pyIdx (len : Nat) (i : Int) : Nat :=
  if i < 0 then (i + len).toNat else min i.toNat len

/-- Python's `l[i:j]` (step 1) on a byte string modelled as a list. -/
def pySlice (l : List Nat) (i j : Int) : List Nat :=
  (l.take (pyIdx l.length j)).drop (pyIdx l.length i)

/-- One back-reference step of `GPXFileSystem.decompress` (lines 168-175):
`position = len(uncompressed) - offset`, `toRead = min(offset, size)`,
`uncompressed += uncompressed[position:position + toRead]`.  The slice is a
bulk copy of the *existing* buffer taken before the append. -/
def backrefAppend (buf : List Nat) (offset size : Nat) : List Nat :=
  let position : Int := (buf.length : Int) - offset
  let toRead : Nat := min offset size
  buf ++ pySlice buf position (position + toRead)

/-- Errors of the embedded pipeline: `parseError` models an uncaught Python
exception (`struct.error` from a failed fixed-size unpack, or a
`UnicodeDecodeError`); `noFuel` records that the fuelled rendering of a
Python `while` loop was still running when the fuel ran out. -/
inductive GPXError where
  | parseError
  | noFuel
deriving DecidableEq, Repr

/-- Two's-complement reading of a 32-bit unsigned value, as `struct`'s
`<i` format produces. -/
def toInt32 (v : Nat) : Int :=
  if v < 2147483648 then (v : Int) else (v : Int) - 4294967296

/-- `struct.unpack('<i', bs)`: requires exactly 4 bytes, little endian. -/
def unpackInt32LE (bs : List Nat) : Option Int :=
  if bs.length = 4 then
    some (toInt32 (bs.getD 0 0 + 256 * bs.getD 1 0 +
                   65536 * bs.getD 2 0 + 16777216 * bs.getD 3 0))
  else none

/-- `size` iterations of `uncompressed += self.fp.read(1)`. -/
def readLiterals : Nat → BitFile → List Nat × BitFile
  | 0, bf => ([], bf)
  | n + 1, bf =>
      match BitFile.read 1 bf with
      | (b, bf') =>
          match readLiterals n bf' with
          | (bs, bf'') => (b ++ bs, bf'')

/-- State of the `decompress` loop: the bit reader and the `uncompressed`
buffer accumulated so far. -/
structure DState where
  bf : BitFile
  buf : List Nat
deriving DecidableEq, Repr

/-- One iteration of the `while` body of `GPXFileSystem.decompress`
(lines 158-181): read the control bit; if it is 1 read `wordSize` (4 bits,
normal order) then `offset` and `size` (`wordSize` bits each, reversed
order) and perform a back-reference append; otherwise read a 2-bit
reversed-order literal count and append that many literal bytes.  A `None`
control bit (exhausted source) is falsy in Python and takes the literal
branch. -/
def decompressStep (st : DState) : DState :=
  let p := readbit st.bf
  if p.1 = some 1 then
    let pw := readbits 4 false p.2
    let po := readbits (pw.1 : Int) true pw.2
    let ps := readbits (pw.1 : Int) true po.2
    ⟨ps.2, backrefAppend st.buf po.1 ps.1⟩
  else
    let pc := readbits 2 true p.2
    let pl := readLiterals pc.1 pc.2
    ⟨pl.2, st.buf ++ pl.1⟩

/-- The fuelled rendering of `while len(uncompressed) < expectedLength`. -/
def decompressLoop (expectedLength : Int) : Nat → DState → Option DState
  | 0, _ => none
  | fuel + 1, st =>
      if (st.buf.length : Int) < expectedLength then
        decompressLoop expectedLength fuel (decompressStep st)
      else some st

/-- Remainder of `GPXFileSystem.decompress` once the 4 header bytes have
been read: unpack `expectedLength` (`struct.unpack('<i', ...)`), run the
loop from an empty buffer, and return the result with its first 4 bytes
stripped (`uncompressed[4:]`). -/
def decompressBody (fuel : Nat) (hdr : List Nat) (bf1 : BitFile) :
    Except GPXError (List Nat × BitFile) :=
  match unpackInt32LE hdr with
  | none => .error .parseError
  | some expectedLength =>
    match decompressLoop expectedLength fuel ⟨bf1, []⟩ with
    | none => .error .noFuel
    | some st => .ok (st.buf.drop 4, st.bf)

/-- `GPXFileSystem.decompress`: read the 4-byte little-endian
`expectedLength` via the bit reader's `read(4)`, then decompress. -/
def decompress (fuel : Nat) (bf : BitFile) : Except GPXError (List Nat × BitFile) :=
  match BitFile.read 4 bf with
  | (hdr, bf1) => decompressBody fuel hdr bf1

/-- Step-reachability inside one decompression run. -/
def StepReach (a b : DState) : Prop :=
  Relation.ReflTransGen (fun x y => y = decompressStep x) a b

/-- The cp1252 ("legacy 8-bit code page") decoding of a single byte, as
Python's `bytes.decode('cp1252')` maps it: bytes below `0x80` and from
`0xA0` up decode to the same code point; `0x80`-`0x9F` map through the
Windows-1252 table; the five unassigned bytes raise `UnicodeDecodeError`,
modelled as `none`. -/
def cp1252DecodeByte (b : Nat) : Option Nat :=
  if b < 128 ∨ 160 ≤ b then some b
  else if b = 128 then some 8364
  else if b = 130 then some 8218
  else if b = 131 then some 402
  else if b = 132 then some 8222
  else if b = 133 then some 8230
  else if b = 134 then some 8224
  else if b = 135 then some 8225
  else if b = 136 then some 710
  else if b = 137 then some 8240
  else if b = 138 then some 352
  else if b = 139 then some 8249
  else if b = 140 then some 338
  else if b = 142 then some 381
  else if b = 145 then some 8216
  else if b = 146 then some 8217
  else if b = 147 then some 8220
  else if b = 148 then some 8221
  else if b = 149 then some 8226
  else if b = 150 then some 8211
  else if b = 151 then some 8212
  else if b = 152 then some 732
  else if b = 153 then some 8482
  else if b = 154 then some 353
  else if b = 155 then some 8250
  else if b = 156 then some 339
  else if b = 158 then some 382
  else if b = 159 then some 376
  else none

/-- `GPXFileSystem._readString`: slice `length` bytes at `offset` and
decode them with cp1252 (a failed decode raises, modelled as `none`). -/
def readString (data : List Nat) (offset : Int) (n : Nat) : Option (List Nat) :=
  (pySlice data offset (offset + n)).mapM cp1252DecodeByte

/-- Python's `str.strip(c)`: remove the character `c` from *both* ends. -/
def stripChar (c : Nat) (l : List Nat) : List Nat :=
  ((l.dropWhile (fun x => x == c)).reverse.dropWhile (fun x => x == c)).reverse

/-- The strip the specification describes: remove *trailing* occurrences
of `c` only. -/
def stripTrailingChar (c : Nat) (l : List Nat) : List Nat :=
  (l.reverse.dropWhile (fun x => x == c)).reverse

/-- The file name claim C7 specifies at a given entry offset: the cp1252
decoding of the 127 bytes at `offset + 4` with only trailing zero bytes
stripped. -/
def specNameAt (data : List Nat) (offset : Int) : Option (List Nat) :=
  ((pySlice data (offset + 4) (offset + 4 + 127)).mapM cp1252DecodeByte).map
    (stripTrailingChar 0)

/-- `GPXFileSystem._readInt`: `struct.unpack_from('<i', data, offset)` — a
negative offset counts from the end of the buffer, then exactly 4 bytes
must be available; the packed value is little-endian, two's complement. -/
def readIntRaw (data : List Nat) (offset : Int) : Option Int :=
  let off : Int := if offset < 0 then offset + data.length else offset
  if 0 ≤ off ∧ off + 4 ≤ (data.length : Int) then
    some (toInt32 (data.getD off.toNat 0 + 256 * data.getD (off.toNat + 1) 0 +
                   65536 * data.getD (off.toNat + 2) 0 +
                   16777216 * data.getD (off.toNat + 3) 0))
  else none

/-- The sector-chain walk of `_readUncompressedBlock` (lines 220-235):
starting at `sectorCount = 1`, read the 32-bit little-endian integer at
`dataPointerOffset + 4 * sectorCount`; a 0 terminates the chain, any other
value is collected and the count advances.  The fuel passed by `readEntry`
(`|data| + 2`) dominates the number of 4-byte reads that can stay inside
the buffer, so running out of fuel coincides with a read going out of
bounds (`struct.error`, also `none`). -/
def chainWalk (data : List Nat) (dpo : Int) : Nat → Nat → Option (List Int)
  | 0, _ => none
  | fuel + 1, count =>
      match readIntRaw data (dpo + 4 * (count : Int)) with
      | none => none
      | some sector =>
          if sector = 0 then some []
          else
            match chainWalk data dpo fuel (count + 1) with
            | none => none
            | some rest => some (sector :: rest)

/-- The data accumulation of the same loop: for each chain element
`sector`, append `data[sector * 0x1000 : sector * 0x1000 + 0x1000]`. -/
def chainData (data : List Nat) (chain : List Int) : List Nat :=
  chain.foldl (fun acc s => acc ++ pySlice data (s * 4096) (s * 4096 + 4096)) []

/-- The final value of the mutated `offset` variable after the chain walk:
the loop sets `offset = sector * sectorSize` on every iteration, so it ends
at the last chain element times 0x1000 — or stays at the entry's own
offset when the chain is empty. -/
def chainOffset (offset : Int) (chain : List Int) : Int :=
  match chain.getLast? with
  | some s => s * 4096
  | none => offset

/-- A decoded file entry (`GPXFile`): name (decoded code points after
`strip`), declared size, and concatenated sector data. -/
structure GPXFile where
  fileName : List Nat
  fileSize : Int
  data : List Nat
deriving DecidableEq, Repr

/-- The `entryType == 2` branch of `_readUncompressedBlock` (lines
212-237): decode and strip the 127-byte name at `offset + 0x04`, read
`fileSize` at `offset + 0x8C`, walk the sector chain based at
`offset + 0x94`, concatenate the chained sectors, and report the final
value of the mutated scan offset. -/
def readEntry (data : List Nat) (offset : Int) : Option (GPXFile × List Int × Int) :=
  (readString data (offset + 4) 127).bind fun rawName =>
  (readIntRaw data (offset + 140)).bind fun fileSize =>
  (chainWalk data (offset + 148) (data.length + 2) 1).bind fun chain =>
  some (⟨stripChar 0 rawName, fileSize, chainData data chain⟩, chain,
        chainOffset offset chain)

/-- The outer scan of `_readUncompressedBlock`: `while (offset + 3) <
len(data)` read the entry type; type 2 decodes a file entry (after which
the scan offset is the chain's last sector offset); any other type skips;
either way the offset then advances by one sector (0x1000).  `noFuel`
models a scan that is still running after `fuel` iterations (a backward
sector jump can make the Python loop spin forever). -/
def readBlockLoop (data : List Nat) : Nat → Int → List GPXFile → Except GPXError (List GPXFile)
  | 0, _, _ => .error .noFuel
  | fuel + 1, offset, acc =>
      if offset + 3 < (data.length : Int) then
        match readIntRaw data offset with
        | none => .error .parseError
        | some entryType =>
            if entryType = 2 then
              match readEntry data offset with
              | none => .error .parseError
              | some (f, _, off') =>
                  readBlockLoop data fuel (off' + 4096) (acc ++ [f])
            else readBlockLoop data fuel (offset + 4096) acc
      else .ok acc

/-- `_readUncompressedBlock` itself starts the scan at `offset =
sectorSize = 0x1000`. -/
def readBlock (data : List Nat) (fuel : Nat) : Except GPXError (List GPXFile) :=
  readBlockLoop data fuel 4096 []

/-- The two recognized magic values, as byte lists. -/
def HEADER_BCFS : List Nat := [66, 67, 70, 83]

/-- The compressed-container magic. -/
def HEADER_BCFZ : List Nat := [66, 67, 70, 90]

/-- Remainder of `GPXFileSystem._readContents` after the 4 magic bytes are
read: `BCFZ` decompresses then reads the block, `BCFS` reads the rest of
the stream verbatim, and any other magic silently does nothing (`pass`),
leaving the file list empty. -/
def readContentsBody (fuel : Nat) (hdr : List Nat) (bf1 : BitFile) :
    Except GPXError (List GPXFile) :=
  if hdr = HEADER_BCFZ then
    match decompress fuel bf1 with
    | .error e => .error e
    | .ok (data, _) => readBlock data fuel
  else if hdr = HEADER_BCFS then
    match BitFile.read (-1) bf1 with
    | (data, _) => readBlock data fuel
  else .ok []

/-- `GPXFileSystem._readContents`: read the 4-byte magic and dispatch. -/
def readContents (fuel : Nat) (bf : BitFile) : Except GPXError (List GPXFile) :=
  match BitFile.read 4 bf with
  | (hdr, bf1) => readContentsBody fuel hdr bf1

/-- A concrete 160-byte buffer holding one type-2 file entry at offset 0:
all-zero name, size 0, sector chain `[1]` (chain slot at 0x98 holds 1, the
slot at 0x9C holds the terminating 0). -/
def data160 : List Nat :=
  [2, 0, 0, 0] ++ List.replicate 148 0 ++ [1, 0, 0, 0] ++ [0, 0, 0, 0]

/-- A concrete 160-byte buffer with one type-2 entry at offset 0 whose
name field starts with a zero byte (`0x00 'a' 0x00 ...`), declared size 0,
and an empty sector chain (the slot at 0x98 already holds the terminating
0). -/
def dataC7 : List Nat :=
  [2, 0, 0, 0] ++ [0, 97] ++ List.replicate 154 0

/-- Claim C10: `readbit` is total and never raises (it is a total Lean
function into `Option Nat × BitFile`): on every reachable reader state it
returns a bit `≤ 1` while unserved bits remain (cursor inside the current
byte, or bytes left in the source); once the source is exhausted it returns
`none` with the state unchanged — hence `none` again on every subsequent
call; a call consumes at most one byte of the source, and a call served
from the already-fetched current byte (`position ≤ 7`) consumes none; and
reachability is preserved. -/
theorem readbit_total_spec (bf : BitFile) (hinv : Inv bf) :
    ((bf.position ≤ 7 ∨ bf.stream ≠ []) →
      ∃ v, (readbit bf).1 = some v ∧ v ≤ 1)
    ∧ ((bf.position > 7 ∧ bf.stream = []) → readbit bf = (none, bf))
    ∧ bf.stream.length ≤ (readbit bf).2.stream.length + 1
    ∧ (bf.position ≤ 7 → (readbit bf).2.stream = bf.stream)
    ∧ Inv (readbit bf).2 := by
  have hbit : ∀ x k : Nat, (x >>> k) &&& 1 ≤ 1 := by
    intro x k
    have := Nat.and_one_is_mod (x >>> k)
    omega
  rcases hinv with h8 | ⟨h7, hb⟩
  · cases hs : bf.stream with
    | nil =>
        refine ⟨?_, ?_, ?_, ?_, ?_⟩ <;>
          simp [readbit, h8, hs, Inv] at *
    | cons b rest =>
        refine ⟨?_, ?_, ?_, ?_, ?_⟩
        · intro _
          exact ⟨(b >>> 7) &&& 1, by simp [readbit, h8, hs], hbit b 7⟩
        · intro hc
          exact absurd hc.2 (by simp)
        · simp [readbit, h8, hs]
        · intro hc; omega
        · simp [readbit, h8, hs, Inv]
  · rcases hcb : bf.currentByte with _ | b
    · exact absurd hcb hb
    · have h7' : ¬ bf.position > 7 := by omega
      refine ⟨?_, ?_, ?_, ?_, ?_⟩
      · intro _
        exact ⟨(b >>> (7 - bf.position)) &&& 1,
               by simp [readbit, h7', hcb], hbit b (7 - bf.position)⟩
      · intro hc; omega
      · simp [readbit, h7', hcb]
      · intro _; simp [readbit, h7', hcb]
      · simp only [readbit, if_neg h7', hcb, Inv]
        by_cases hp : bf.position + 1 = 8
        · left; exact hp
        · right; exact ⟨by omega, by simp⟩

/-- Witness for C10 at a concrete one-byte source: a fresh reader over the
single byte `0xAB` consumes at most one byte on its first `readbit`. -/
theorem readbit_total_spec_witness :
    (BitFile.init [171]).stream.length ≤
      (readbit (BitFile.init [171])).2.stream.length + 1 :=
  (readbit_total_spec (BitFile.init [171]) (by decide)).2.2.1

/-- Claim C6 (failing evaluation): `BitFile.read` does *not* left-pad to
the requested byte count.  Reading 2 bytes from the source `0x00 0x12`
packs the integer `0x0012 = 18`, whose hex rendering `"12"` already has
even length, so `unhexlify` yields the single byte `0x12` instead of the
two bytes `0x00 0x12` that the claim (and `readbits(n*8)` zero-padded to
`n` bytes) requires. -/
theorem read_drops_leading_zero_bytes :
    (BitFile.read 2 (BitFile.init [0, 18])).1 = [18]
    ∧ ((BitFile.read 2 (BitFile.init [0, 18])).1).length ≠ 2 := by
  constructor
  · rfl
  · decide

/-- Claim C2 (counterexample): on the 4-byte buffer `"abcd"`, a
back-reference with `offset = 4`, `size = 6` appends `"abcd"` — the slice
is clamped to `min(offset, size) = 4` bytes of already-written output and
never overlaps the freshly appended tail — not the 6 bytes `"abcdab"` the
claim demands. -/
theorem backref_overlap_claim_false :
    backrefAppend [97, 98, 99, 100] 4 6
      ≠ [97, 98, 99, 100] ++ [97, 98, 99, 100, 97, 98]
    ∧ backrefAppend [97, 98, 99, 100] 4 6 = [97, 98, 99, 100, 97, 98, 99, 100] := by
  decide

/-- Claim C2 (amended): the same step appends exactly
`min(offset, size) = 4` bytes, namely `"abcd"`, read in one bulk slice of
the pre-existing buffer (no byte-by-byte overlap into just-written data). -/
theorem backref_abcd_appends_min :
    backrefAppend [97, 98, 99, 100] 4 6 = [97, 98, 99, 100] ++ [97, 98, 99, 100]
    ∧ (backrefAppend [97, 98, 99, 100] 4 6).length = 4 + min 4 6 := by
  decide

/-- Claim C3: whenever `offset ≤ |buf|`, a back-reference step appends
exactly the slice `buf[|buf| - offset : |buf| - offset + min(offset, size)]`;
the number of appended bytes is `min(offset, size)` and the copied region
lies entirely inside the already-produced output
(`|buf| - offset + min(offset, size) ≤ |buf|`). -/
theorem backref_in_bounds_spec (buf : List Nat) (offset size : Nat)
    (h : offset ≤ buf.length) :
    backrefAppend buf offset size
      = buf ++ (buf.drop (buf.length - offset)).take (min offset size)
    ∧ (backrefAppend buf offset size).length = buf.length + min offset size
    ∧ buf.length - offset + min offset size ≤ buf.length := by
  have hm : min offset size ≤ offset := Nat.min_le_left _ _
  have hi : pyIdx buf.length ((buf.length : Int) - offset) = buf.length - offset := by
    unfold pyIdx
    rw [if_neg (by omega)]
    rw [Int.toNat_sub]
    omega
  have hj : pyIdx buf.length ((buf.length : Int) - offset + min offset size)
      = buf.length - offset + min offset size := by
    unfold pyIdx
    rw [if_neg (by omega)]
    have hcast : (buf.length : Int) - offset + min offset size
        = ((buf.length - offset + min offset size : Nat) : Int) := by
      push_cast
      omega
    rw [hcast, Int.toNat_natCast]
    omega
  have hslice : pySlice buf ((buf.length : Int) - offset)
        ((buf.length : Int) - offset + min offset size)
      = (buf.drop (buf.length - offset)).take (min offset size) := by
    unfold pySlice
    rw [hi, hj]
    have := List.take_drop (buf.length - offset) (min offset size) buf
    rw [← this]
  have hlen : ((buf.drop (buf.length - offset)).take (min offset size)).length
      = min offset size := by
    rw [List.length_take, List.length_drop]
    omega
  refine ⟨?_, ?_, by omega⟩
  · simp only [backrefAppend]
    rw [hslice]
  · simp only [backrefAppend]
    rw [hslice, List.length_append, hlen]

/-- Witness for C3 at `buf = [1,2]`, `offset = 2`, `size = 3`. -/
theorem backref_in_bounds_spec_witness :
    backrefAppend [1, 2] 2 3
      = [1, 2] ++ (([1, 2] : List Nat).drop (([1, 2] : List Nat).length - 2)).take (min 2 3)
    ∧ (backrefAppend [1, 2] 2 3).length = ([1, 2] : List Nat).length + min 2 3
    ∧ ([1, 2] : List Nat).length - 2 + min 2 3 ≤ ([1, 2] : List Nat).length :=
  backref_in_bounds_spec [1, 2] 2 3 (by decide)

/-- Claim C8 (failing evaluation): when the computed source region starts
before the produced output (`copyStart = |buf| - offset < 0`), `decompress`
does not detect or report anything — Python's negative-slice normalization
silently clamps the region.  On the empty buffer a back-reference with
`offset = 1, size = 1` appends nothing; on the buffer `[10, 20]` one with
`offset = 5, size = 5` (`copyStart = -3`) silently appends the clamped
slice `[10, 20]` and decompression continues. -/
theorem backref_out_of_range_silent :
    backrefAppend [] 1 1 = []
    ∧ backrefAppend [10, 20] 5 5 = [10, 20, 10, 20] := by
  decide

/-- Unfolding equation for `decompress` given the result of the header
read. -/
theorem decompress_eq (fuel : Nat) (bf : BitFile) (hdr : List Nat)
    (bf1 : BitFile) (h : BitFile.read 4 bf = (hdr, bf1)) :
    decompress fuel bf = decompressBody fuel hdr bf1 := by
  unfold decompress
  rw [h]

/-- On a reader whose source is exhausted (`position > 7`, empty stream),
`readbit` returns `None` and leaves the state unchanged. -/
theorem readbit_exhausted (bf : BitFile) (h7 : bf.position > 7)
    (hs : bf.stream = []) : readbit bf = (none, bf) := by
  unfold readbit
  rw [if_pos h7, hs]

/-- On an exhausted reader the loop body makes no progress: the `None`
control bit is falsy, the 2-bit literal count packs to 0, and zero literal
bytes are appended, so the state is a fixpoint of `decompressStep`. -/
theorem decompressStep_exhausted (st : DState) (h7 : st.bf.position > 7)
    (hs : st.bf.stream = []) : decompressStep st = st := by
  have hrb := readbit_exhausted st.bf h7 hs
  simp only [decompressStep, hrb]
  rw [if_neg (by simp)]
  have haux : readbitsAux 2 st.bf = ([none, none], st.bf) := by
    simp [readbitsAux, hrb]
  have hc : readbits 2 true st.bf = (0, st.bf) := by
    simp only [readbits, if_neg (by decide : ¬ (2 : Int) = -1)]
    rw [show (2 : Int).toNat = 2 from rfl, haux]
    rfl
  simp [hc, readLiterals]

/-- Claim C5 (divergence lemma): from any state whose reader is exhausted
and whose buffer is still shorter than `expectedLength`, the loop never
terminates — no amount of fuel produces a result. -/
theorem decompressLoop_exhausted_diverges (expectedLength : Int) :
    ∀ fuel (st : DState), st.bf.position > 7 → st.bf.stream = [] →
      (st.buf.length : Int) < expectedLength →
      decompressLoop expectedLength fuel st = none := by
  intro fuel
  induction fuel with
  | zero => intro st _ _ _; rfl
  | succ n ih =>
      intro st h7 hs hlt
      unfold decompressLoop
      rw [if_pos hlt, decompressStep_exhausted st h7 hs]
      exact ih st h7 hs hlt

set_option maxRecDepth 8000 in
/-- Claim C5 (failing evaluation): feeding `_readContents`-level input a
compressed (`BCFZ`) container truncated right after its length header —
declared decompressed length 5, then end of source — the decompression
loop spins forever appending nothing (for every fuel bound it has not
terminated), and no `TruncatedSource`-style error is ever surfaced. -/
theorem decompress_truncated_loops_forever :
    ∀ fuel, decompress fuel (BitFile.init [5, 0, 0, 0]) = .error .noFuel := by
  intro fuel
  have hread : BitFile.read 4 (BitFile.init [5, 0, 0, 0])
      = ([5, 0, 0, 0], ⟨[], some 0, 8⟩) := by decide
  have hloop := decompressLoop_exhausted_diverges 5 fuel
      ⟨⟨[], some 0, 8⟩, []⟩ (by decide) rfl (by decide)
  rw [decompress_eq fuel _ _ _ hread]
  simp only [decompressBody, show unpackInt32LE [5, 0, 0, 0] = some 5 from rfl, hloop]

/-- Claim C9: the decompression loop (1) stops as soon as the internal
buffer (which still carries the 4-byte header) is no shorter than
`expectedLength`, (2) while it is shorter performs one full step — a step
is never truncated mid-copy: (3) every step extends the buffer by appending
a complete chunk; (4) when every step taken from a reachable
shorter-than-target state lands at or below the boundary (the aligned
case), the buffer length on exit is exactly `expectedLength`; and (5) the
value `decompress` returns is the final buffer with its first 4 bytes
removed. -/
theorem decompress_loop_boundary_spec :
    (∀ (expectedLength : Int) (st : DState) (fuel : Nat),
        ¬ ((st.buf.length : Int) < expectedLength) →
        decompressLoop expectedLength (fuel + 1) st = some st)
    ∧ (∀ (expectedLength : Int) (st : DState) (fuel : Nat),
        (st.buf.length : Int) < expectedLength →
        decompressLoop expectedLength (fuel + 1) st
          = decompressLoop expectedLength fuel (decompressStep st))
    ∧ (∀ st : DState, ∃ chunk, (decompressStep st).buf = st.buf ++ chunk)
    ∧ (∀ (expectedLength : Int) (fuel : Nat) (st st' : DState),
        (st.buf.length : Int) ≤ expectedLength →
        (∀ s, StepReach st s → (s.buf.length : Int) < expectedLength →
            ((decompressStep s).buf.length : Int) ≤ expectedLength) →
        decompressLoop expectedLength fuel st = some st' →
        (st'.buf.length : Int) = expectedLength)
    ∧ (∀ (fuel : Nat) (bf : BitFile) (hdr : List Nat) (bf1 : BitFile)
          (expectedLength : Int) (st' : DState),
        BitFile.read 4 bf = (hdr, bf1) →
        unpackInt32LE hdr = some expectedLength →
        decompressLoop expectedLength fuel ⟨bf1, []⟩ = some st' →
        decompress fuel bf = .ok (st'.buf.drop 4, st'.bf)) := by
  refine ⟨?_, ?_, ?_, ?_, ?_⟩
  · intro e st fuel hge
    unfold decompressLoop
    rw [if_neg hge]
  · intro e st fuel hlt
    show (if (st.buf.length : Int) < e then decompressLoop e fuel (decompressStep st)
          else some st) = decompressLoop e fuel (decompressStep st)
    rw [if_pos hlt]
  · intro st
    unfold decompressStep
    by_cases hf : (readbit st.bf).1 = some 1
    · rw [if_pos hf]
      exact ⟨_, rfl⟩
    · rw [if_neg hf]
      exact ⟨_, rfl⟩
  · intro e fuel
    induction fuel with
    | zero => intro st st' _ _ h; exact absurd h (by simp [decompressLoop])
    | succ n ih =>
        intro st st' hle hstep hloop
        unfold decompressLoop at hloop
        by_cases hlt : (st.buf.length : Int) < e
        · rw [if_pos hlt] at hloop
          refine ih (decompressStep st) st' ?_ ?_ hloop
          · exact hstep st Relation.ReflTransGen.refl hlt
          · intro s hs hslt
            exact hstep s (Relation.ReflTransGen.head rfl hs) hslt
        · rw [if_neg hlt] at hloop
          have : st = st' := by
            injection hloop
          subst this
          omega
  · intro fuel bf hdr bf1 e st' hread hunpack hloop
    rw [decompress_eq fuel bf hdr bf1 hread]
    simp only [decompressBody, hunpack, hloop]

set_option maxRecDepth 8000 in
/-- Witness for C9, touching each hypothesis-bearing conjunct at concrete
inputs: with `expectedLength = 0` and an empty initial buffer the loop
exits at once and the exit length is exactly 0; with `expectedLength = 1`
the loop takes a full step; and on the source `01 00 00 80` (little-endian
`expectedLength = -2147483647`) `decompress` returns the stripped final
buffer. -/
theorem decompress_loop_boundary_spec_witness :
    decompressLoop 0 1 ⟨BitFile.init [], []⟩ = some ⟨BitFile.init [], []⟩
    ∧ (((⟨BitFile.init [], []⟩ : DState).buf.length : Int) = 0)
    ∧ decompressLoop 1 1 ⟨BitFile.init [], []⟩
        = decompressLoop 1 0 (decompressStep ⟨BitFile.init [], []⟩)
    ∧ decompress 1 (BitFile.init [1, 0, 0, 128])
        = .ok ((⟨⟨[], some 128, 8⟩, []⟩ : DState).buf.drop 4,
               (⟨⟨[], some 128, 8⟩, []⟩ : DState).bf) := by
  refine ⟨decompress_loop_boundary_spec.1 0 ⟨BitFile.init [], []⟩ 0 (by decide), ?_, ?_, ?_⟩
  · exact decompress_loop_boundary_spec.2.2.2.1 0 1 ⟨BitFile.init [], []⟩
      ⟨BitFile.init [], []⟩ (by decide)
      (fun s _ hslt => absurd hslt (by omega))
      (decompress_loop_boundary_spec.1 0 ⟨BitFile.init [], []⟩ 0 (by decide))
  · exact decompress_loop_boundary_spec.2.1 1 ⟨BitFile.init [], []⟩ 0 (by decide)
  · exact decompress_loop_boundary_spec.2.2.2.2 1 (BitFile.init [1, 0, 0, 128])
      [1, 0, 0, 128] ⟨[], some 128, 8⟩ (-2147483647) ⟨⟨[], some 128, 8⟩, []⟩
      (by decide) (by decide) (by decide)

/-- Unfolding equation for `readContents` given the magic read. -/
theorem readContents_eq (fuel : Nat) (bf : BitFile) (hdr : List Nat)
    (bf1 : BitFile) (h : BitFile.read 4 bf = (hdr, bf1)) :
    readContents fuel bf = readContentsBody fuel hdr bf1 := by
  unfold readContents
  rw [h]

set_option maxRecDepth 8000 in
/-- Claim C4 (failing evaluation): a container whose magic `"XXXX"`
(bytes `0x58`) matches neither `BCFS` nor `BCFZ` is *not* rejected with an
`UnrecognizedContainer` error — `_readContents` takes the silent `pass`
branch and the open completes successfully with an empty entry list, for
every fuel bound. -/
theorem unknown_magic_silent_empty :
    ∀ fuel, readContents fuel (BitFile.init [88, 88, 88, 88]) = .ok [] := by
  intro fuel
  have hread : BitFile.read 4 (BitFile.init [88, 88, 88, 88])
      = ([88, 88, 88, 88], ⟨[], some 88, 8⟩) := by decide
  rw [readContents_eq fuel _ _ _ hread]
  simp only [readContentsBody]
  rw [if_neg (by decide), if_neg (by decide)]

/-- Claim C1: at any scan offset holding a type-2 entry whose decode
succeeds with a non-empty sector chain, the scan does not resume at
`offset + 0x1000`: the decoded entry's final offset is the last chain
element times 0x1000, and the next top-level iteration examines
`lastChainElement * 0x1000 + 0x1000` (with the entry appended to the file
list). -/
theorem scan_cursor_jump (data : List Nat) (fuel : Nat) (offset : Int)
    (acc : List GPXFile) (f : GPXFile) (chain : List Int) (off' : Int)
    (hin : offset + 3 < (data.length : Int))
    (htype : readIntRaw data offset = some 2)
    (hentry : readEntry data offset = some (f, chain, off'))
    (hne : chain ≠ []) :
    off' = chain.getLast hne * 4096
    ∧ readBlockLoop data (fuel + 1) offset acc
        = readBlockLoop data fuel (chain.getLast hne * 4096 + 4096) (acc ++ [f]) := by
  have hoff' : off' = chain.getLast hne * 4096 := by
    simp only [readEntry, Option.bind_eq_some] at hentry
    obtain ⟨rawName, _, fileSize, _, chain', _, heq⟩ := hentry
    have h3 : chainOffset offset chain' = off' ∧ chain' = chain := by
      have := Option.some.inj heq
      exact ⟨congrArg (fun t => t.2.2) this, congrArg (fun t => t.2.1) this⟩
    rcases h3 with ⟨h4, h5⟩
    rw [← h4, h5]
    unfold chainOffset
    rw [List.getLast?_eq_getLast chain hne]
  refine ⟨hoff', ?_⟩
  have step : readBlockLoop data (fuel + 1) offset acc
      = readBlockLoop data fuel (off' + 4096) (acc ++ [f]) := by
    show (if offset + 3 < (data.length : Int) then
            match readIntRaw data offset with
            | none => .error .parseError
            | some entryType =>
                if entryType = 2 then
                  match readEntry data offset with
                  | none => .error .parseError
                  | some (f, _, off') =>
                      readBlockLoop data fuel (off' + 4096) (acc ++ [f])
                else readBlockLoop data fuel (offset + 4096) acc
          else .ok acc)
        = readBlockLoop data fuel (off' + 4096) (acc ++ [f])
    rw [if_pos hin, htype]
    show (if (2 : Int) = 2 then
            match readEntry data offset with
            | none => .error .parseError
            | some (f, _, off') =>
                readBlockLoop data fuel (off' + 4096) (acc ++ [f])
          else readBlockLoop data fuel (offset + 4096) acc)
        = readBlockLoop data fuel (off' + 4096) (acc ++ [f])
    rw [if_pos rfl, hentry]
  rw [step, hoff']

set_option maxRecDepth 8000 in
/-- Witness for C1 on `data160`: the entry's chain is `[1]`, so the final
offset is `1 * 0x1000 = 4096` and the scan resumes at `8192`. -/
theorem scan_cursor_jump_witness :
    (4096 : Int) = ([1] : List Int).getLast (by decide) * 4096
    ∧ readBlockLoop data160 1 0 []
        = readBlockLoop data160 0 (([1] : List Int).getLast (by decide) * 4096 + 4096)
            ([] ++ [⟨[], 0, []⟩]) :=
  scan_cursor_jump data160 0 0 [] ⟨[], 0, []⟩ [1] 4096
    (by decide) (by decide) (by decide) (by decide)

/-- A Python slice with non-negative in-bounds limits is an ordinary
drop/take. -/
theorem pySlice_nonneg (l : List Nat) (a b : Int) (h0 : 0 ≤ a) (hab : a ≤ b)
    (hlen : b ≤ (l.length : Int)) :
    pySlice l a b = (l.drop a.toNat).take (b.toNat - a.toNat) := by
  have ha' : (a.toNat : Int) = a := Int.toNat_of_nonneg h0
  have hb' : (b.toNat : Int) = b := Int.toNat_of_nonneg (le_trans h0 hab)
  unfold pySlice pyIdx
  rw [if_neg (by omega), if_neg (by omega)]
  rw [show min b.toNat l.length = b.toNat by omega,
      show min a.toNat l.length = a.toNat by omega]
  rw [List.take_drop a.toNat (b.toNat - a.toNat) l,
      show a.toNat + (b.toNat - a.toNat) = b.toNat by omega]

/-- Characterization of a successful chain walk: element `k` of the result
was read at slot `count + k`, every element is non-zero, and the slot right
after the last element holds the terminating 0. -/
theorem chainWalk_spec (data : List Nat) (dpo : Int) :
    ∀ (fuel count : Nat) (chain : List Int),
      chainWalk data dpo fuel count = some chain →
      (∀ (k : Nat) (hk : k < chain.length),
          readIntRaw data (dpo + 4 * ((count : Int) + k)) = some (chain.get ⟨k, hk⟩))
      ∧ (∀ s ∈ chain, s ≠ 0)
      ∧ readIntRaw data (dpo + 4 * ((count : Int) + chain.length)) = some 0 := by
  intro fuel
  induction fuel with
  | zero =>
      intro count chain h
      exact absurd h (by simp [chainWalk])
  | succ n ih =>
      intro count chain h
      unfold chainWalk at h
      rcases hr : readIntRaw data (dpo + 4 * (count : Int)) with _ | sector
      · rw [hr] at h
        exact absurd h (by simp)
      · rw [hr] at h
        dsimp only at h
        by_cases hz : sector = 0
        · rw [if_pos hz] at h
          have hchain : chain = [] := (Option.some.inj h).symm
          subst hchain
          refine ⟨?_, by simp, ?_⟩
          · intro k hk
            exact absurd hk (by simp)
          · rw [show (dpo + 4 * ((count : Int) + ([] : List Int).length))
                  = dpo + 4 * (count : Int) by push_cast [List.length_nil] ; ring]
            rw [hr, hz]
        · rw [if_neg hz] at h
          rcases hw : chainWalk data dpo n (count + 1) with _ | rest
          · rw [hw] at h
            exact absurd h (by simp)
          · rw [hw] at h
            dsimp only at h
            have hchain : chain = sector :: rest := (Option.some.inj h).symm
            subst hchain
            obtain ⟨ih1, ih2, ih3⟩ := ih (count + 1) rest hw
            refine ⟨?_, ?_, ?_⟩
            · intro k hk
              cases k with
              | zero =>
                  rw [show (dpo + 4 * ((count : Int) + ((0 : Nat) : Int)))
                        = dpo + 4 * (count : Int) by push_cast ; ring]
                  exact hr
              | succ j =>
                  have hj : j < rest.length := by
                    simpa using hk
                  have := ih1 j hj
                  rw [show (dpo + 4 * ((count : Int) + ((j + 1 : Nat) : Int)))
                        = dpo + 4 * (((count + 1 : Nat) : Int) + j) by push_cast ; ring]
                  exact this
            · intro s hs
              rcases List.mem_cons.mp hs with hs | hs
              · rw [hs]; exact hz
              · exact ih2 s hs
            · rw [show (dpo + 4 * ((count : Int) + ((sector :: rest).length : Int)))
                    = dpo + 4 * (((count + 1 : Nat) : Int) + rest.length)
                  by push_cast [List.length_cons] ; ring]
              exact ih3

/-- The incremental `fileData` fold equals an append of per-sector
slices. -/
theorem foldl_append_slices (data : List Nat) :
    ∀ (chain : List Int) (acc : List Nat),
      chain.foldl (fun a s => a ++ pySlice data (s * 4096) (s * 4096 + 4096)) acc
        = acc ++ (chain.map fun s => pySlice data (s * 4096) (s * 4096 + 4096)).flatten := by
  intro chain
  induction chain with
  | nil => intro acc; simp
  | cons s rest ih =>
      intro acc
      rw [List.foldl_cons, ih, List.map_cons, List.flatten_cons, List.append_assoc]

/-- Claim C7 (amended: the code strips zero bytes from *both* ends of the
decoded name, not only trailing ones; otherwise as claimed): for any
successfully decoded type-2 entry whose name field lies in the buffer and
whose chain sectors all lie in the buffer, the entry's name is the cp1252
decoding of the 127 bytes at `offset + 4` with zero bytes stripped from
both ends; `fileSize` is the 32-bit little-endian integer at
`offset + 0x8C`; the chain is exactly the run of 32-bit little-endian
integers at `offset + 0x94 + 4k` (k = 1, 2, ...) up to and excluding the
first 0; and the data is the concatenation, in chain order, of the
4096-byte sectors at `s * 4096`. -/
theorem readEntry_fields_spec (data : List Nat) (offset : Int) (f : GPXFile)
    (chain : List Int) (off' : Int)
    (hoff : 0 ≤ offset)
    (hname : offset + 131 ≤ (data.length : Int))
    (hentry : readEntry data offset = some (f, chain, off'))
    (hsec : ∀ s ∈ chain, 0 ≤ s ∧ s * 4096 + 4096 ≤ (data.length : Int)) :
    (∃ raw, ((data.drop (offset.toNat + 4)).take 127).mapM cp1252DecodeByte = some raw
        ∧ f.fileName = stripChar 0 raw)
    ∧ readIntRaw data (offset + 140) = some f.fileSize
    ∧ (∀ (k : Nat) (hk : k < chain.length),
        readIntRaw data (offset + 148 + 4 * ((1 : Int) + k)) = some (chain.get ⟨k, hk⟩))
    ∧ (∀ s ∈ chain, s ≠ 0)
    ∧ readIntRaw data (offset + 148 + 4 * ((1 : Int) + chain.length)) = some 0
    ∧ f.data = (chain.map fun s => (data.drop (s * 4096).toNat).take 4096).flatten
    ∧ (∀ s ∈ chain, ((data.drop (s * 4096).toNat).take 4096).length = 4096) := by
  simp only [readEntry, Option.bind_eq_some] at hentry
  obtain ⟨rawName, hrs, fileSize, hfs, chain', hcw, heq⟩ := hentry
  have heq' := Option.some.inj heq
  have hf : (⟨stripChar 0 rawName, fileSize, chainData data chain'⟩ : GPXFile) = f :=
    congrArg (fun t => t.1) heq'
  have hc : chain' = chain := congrArg (fun t => t.2.1) heq'
  subst hc
  have hsector_eq : ∀ s ∈ chain', pySlice data (s * 4096) (s * 4096 + 4096)
      = (data.drop (s * 4096).toNat).take 4096 := by
    intro s hs
    obtain ⟨hs0, hsl⟩ := hsec s hs
    have h0 : (0 : Int) ≤ s * 4096 := by positivity
    have h1 : ((s * 4096).toNat : Int) = s * 4096 := Int.toNat_of_nonneg h0
    have h2 : (((s * 4096 + 4096)).toNat : Int) = s * 4096 + 4096 :=
      Int.toNat_of_nonneg (by omega)
    rw [pySlice_nonneg data (s * 4096) (s * 4096 + 4096) h0 (by omega) hsl]
    rw [show (s * 4096 + 4096).toNat - (s * 4096).toNat = 4096 by omega]
  obtain ⟨cw1, cw2, cw3⟩ := chainWalk_spec data (offset + 148) (data.length + 2) 1 chain' hcw
  refine ⟨?_, ?_, ?_, cw2, ?_, ?_, ?_⟩
  · refine ⟨rawName, ?_, ?_⟩
    · rw [← hrs]
      unfold readString
      rw [show (offset + 4 + ((127 : Nat) : Int)) = offset + 4 + 127 by push_cast ; ring]
      rw [pySlice_nonneg data (offset + 4) (offset + 4 + 127) (by omega) (by omega) (by omega)]
      rw [show (offset + 4 + 127).toNat - (offset + 4).toNat = 127 by omega,
          show (offset + 4).toNat = offset.toNat + 4 by omega]
    · rw [← hf]
  · rw [hfs, ← hf]
  · intro k hk
    have := cw1 k hk
    rw [show (offset + 148 + 4 * ((1 : Int) + k)) = offset + 148 + 4 * (((1 : Nat) : Int) + k)
          by push_cast ; ring]
    exact this
  · rw [show (offset + 148 + 4 * ((1 : Int) + chain'.length))
          = offset + 148 + 4 * (((1 : Nat) : Int) + chain'.length) by push_cast ; ring]
    exact cw3
  · rw [← hf]
    show chainData data chain' = _
    unfold chainData
    rw [foldl_append_slices data chain' []]
    rw [List.map_congr_left hsector_eq]
    rfl
  · intro s hs
    obtain ⟨hs0, hsl⟩ := hsec s hs
    have h0 : (0 : Int) ≤ s * 4096 := by positivity
    have h1 : ((s * 4096).toNat : Int) = s * 4096 := Int.toNat_of_nonneg h0
    rw [List.length_take, List.length_drop]
    omega

set_option maxRecDepth 8000 in
/-- Claim C7 (counterexample): on `dataC7` the decoded entry's name is
`"a"` — the code's `strip(b'\x00')` removes the *leading* zero byte as
well — whereas the claim's trailing-only strip specifies `"\x00a"`. -/
theorem entry_name_strip_claim_false :
    ((readEntry dataC7 0).map fun t => t.1.fileName) = some [97]
    ∧ specNameAt dataC7 0 = some [0, 97]
    ∧ ((readEntry dataC7 0).map fun t => t.1.fileName) ≠ specNameAt dataC7 0 := by
  decide

set_option maxRecDepth 8000 in
/-- Witness for the amended C7 on `dataC7`: the entry decodes with name
`"a"`, size 0 (read at `offset + 0x8C`), an empty chain, and empty data. -/
theorem readEntry_fields_spec_witness :
    (⟨[97], 0, []⟩ : GPXFile).data
      = (([] : List Int).map fun s => (dataC7.drop (s * 4096).toNat).take 4096).flatten
    ∧ readIntRaw dataC7 ((0 : Int) + 140)
        = some (⟨[97], 0, []⟩ : GPXFile).fileSize :=
  have h := readEntry_fields_spec dataC7 0 ⟨[97], 0, []⟩ [] 0
    (by decide) (by decide) (by decide) (by decide)
  ⟨h.2.2.2.2.2.1, h.2.1⟩

end GPX
